import Mathlib

/-!
Shallow embedding of the api-rate-limiter core (Go): the token bucket
(limiter/token_bucket.go) and the leaky bucket (limiter, leaky_bucket file).

Modelling conventions:
- Go int is modelled as Lean Int.
- The token bucket's done channel is modelled by the flag doneClosed;
  closing an already-closed channel is a Go runtime panic, modelled by
  Stop returning none.  Likewise the leaky bucket's stopCh is modelled by
  stopChClosed.
- The leaky bucket's queue of empty structs is modelled as List Unit; the
  Go slice expression queue[removeCount:] panics when removeCount is
  negative, modelled by leakTick returning none.
- The background goroutine loops (refill, startLeaking) are modelled by a
  per-iteration transition function plus a run over an explicit schedule of
  select-branch resolutions.  Go select chooses pseudo-randomly among ready
  cases, and time.Ticker delivers ticks through a buffered channel, so a
  tick branch may still be taken after the done/stop channel is closed;
  the schedule makes that nondeterminism explicit.
- The mutex serialises every read-modify-write, so each operation is one
  atomic transition on the state.
-/

/-- The error value ErrContextTimeout from limiter/token_bucket.go. -/
def ErrContextTimeout : String := "context canceled or timeout before acquiring token"

/-- The unused error value ErrQueueEmpty from limiter/token_bucket.go. -/
def ErrQueueEmpty : String := "queue is empty"

/-- State of a TokenBucket: capacity, tokens, fillInterval, and whether the
done channel has been closed.  The ticker and mutex carry no abstract state
beyond this. -/
structure TokenBucket where
  capacity : Int
  tokens : Int
  fillInterval : Int
  doneClosed : Bool
deriving DecidableEq

/-- NewTokenBucket: starts with a full bucket and the done channel open. -/
def NewTokenBucket (capacity fillInterval : Int) : TokenBucket :=
  { capacity := capacity
    tokens := capacity
    fillInterval := fillInterval
    doneClosed := false }

/-- One tick-branch iteration of the refill goroutine: add one token if not
full.  The loop body takes the mutex and does not consult done. -/
def TokenBucket.refillTick (tb : TokenBucket) : TokenBucket :=
  if tb.tokens < tb.capacity then { tb with tokens := tb.tokens + 1 } else tb

/-- A resolution of the select in the refill loop: either the ticker channel
fired (tick) or the done channel was observed closed (done). -/
inductive RefillEvent where
  | tick
  | done
deriving DecidableEq

/-- The refill loop run over a schedule of select resolutions: a tick event
executes refillTick and continues; a done event returns from the goroutine. -/
def TokenBucket.refillRun : List RefillEvent → TokenBucket → TokenBucket
  | [], tb => tb
  | RefillEvent.tick :: rest, tb => TokenBucket.refillRun rest tb.refillTick
  | RefillEvent.done :: _, tb => tb

/-- Stop: close(tb.done) then ticker.Stop().  Closing a closed channel is a
Go runtime panic, modelled as none. -/
def TokenBucket.Stop (tb : TokenBucket) : Option TokenBucket :=
  if tb.doneClosed then none
  else some { tb with doneClosed := true }

/-- TryAcquire: under the mutex, if tokens > 0 decrement and return true,
else return false.  The done/stopped state is not consulted. -/
def TokenBucket.TryAcquire (tb : TokenBucket) : Bool × TokenBucket :=
  if tb.tokens > 0 then (true, { tb with tokens := tb.tokens - 1 })
  else (false, tb)

/-- A resolution of the select in the Acquire wait loop: the context's Done
channel fired (cancel) or the local ticker fired (tick). -/
inductive AcquireEvent where
  | cancel
  | tick
deriving DecidableEq

/-- The wait loop of Acquire, run over a schedule of select resolutions:
cancel returns ErrContextTimeout; tick retries TryAcquire, returning ok on
success.  An empty schedule means the loop is still blocked (none). -/
def TokenBucket.acquireWait : List AcquireEvent → TokenBucket → Option (Except String Unit × TokenBucket)
  | [], _ => none
  | AcquireEvent.cancel :: _, tb => some (Except.error ErrContextTimeout, tb)
  | AcquireEvent.tick :: rest, tb =>
      match tb.TryAcquire with
      | (true, tb2) => some (Except.ok (), tb2)
      | (false, tb2) => TokenBucket.acquireWait rest tb2

/-- Acquire: first TryAcquire without waiting; on failure enter the wait
loop with a fresh ticker.  An already-cancelled context makes the first
select resolution a cancel event. -/
def TokenBucket.Acquire (evs : List AcquireEvent) (tb : TokenBucket) : Option (Except String Unit × TokenBucket) :=
  match tb.TryAcquire with
  | (true, tb2) => some (Except.ok (), tb2)
  | (false, tb2) => TokenBucket.acquireWait evs tb2

/-- State of a leakyBucket: capacity, leakRate, the queue of in-flight
tokens, whether stopCh has been closed, the stopped flag, and leakCount. -/
structure leakyBucket where
  capacity : Int
  leakRate : Int
  queue : List Unit
  stopChClosed : Bool
  stopped : Bool
  leakCount : Int
deriving DecidableEq

/-- NewLeakyBucket: empty queue, open stopCh, not stopped.  No validation
of capacity or leakCount is performed. -/
def NewLeakyBucket (capacity leakInterval leakCount : Int) : leakyBucket :=
  { capacity := capacity
    leakRate := leakInterval
    queue := []
    stopChClosed := false
    stopped := false
    leakCount := leakCount }

/-- One tick-branch iteration of the startLeaking goroutine: under the
mutex, return without mutation if stopped; otherwise clamp removeCount to
the queue length from above only and take the slice queue[removeCount:].
A negative removeCount makes the slice expression panic (none). -/
def leakyBucket.leakTick (lb : leakyBucket) : Option leakyBucket :=
  if lb.stopped then some lb
  else
    let removeCount : Int :=
      if lb.leakCount > (lb.queue.length : Int) then (lb.queue.length : Int) else lb.leakCount
    if removeCount < 0 then none
    else some { lb with queue := lb.queue.drop removeCount.toNat }

/-- Allow: under the mutex, reject if stopped; append one token and accept
if the queue is below capacity; otherwise reject. -/
def leakyBucket.Allow (lb : leakyBucket) : Bool × leakyBucket :=
  if lb.stopped then (false, lb)
  else if (lb.queue.length : Int) < lb.capacity then
    (true, { lb with queue := lb.queue ++ [()] })
  else (false, lb)

/-- Stop: under the mutex, if not yet stopped, set stopped and close
stopCh.  The stopped guard prevents a double close; closing an
already-closed channel would be a panic (none). -/
def leakyBucket.Stop (lb : leakyBucket) : Option leakyBucket :=
  if !lb.stopped then
    if lb.stopChClosed then none
    else some { lb with stopped := true, stopChClosed := true }
  else some lb

/-- CurrentSize: the current number of tokens in the bucket. -/
def leakyBucket.CurrentSize (lb : leakyBucket) : Int :=
  (lb.queue.length : Int)

/-- Capacity: the fixed maximum capacity. -/
def leakyBucket.Capacity (lb : leakyBucket) : Int :=
  lb.capacity

/-- Iterated TryAcquire: the state after performing the call a given number
of times in a row, with no intervening driver tick. -/
def runTryAcquire : Nat → TokenBucket → TokenBucket
  | 0, tb => tb
  | Nat.succ k, tb => runTryAcquire k tb.TryAcquire.snd

/-- Iterated Allow: the state after performing the call a given number of
times in a row, with no intervening driver tick. -/
def runAllow : Nat → leakyBucket → leakyBucket
  | 0, lb => lb
  | Nat.succ k, lb => runAllow k lb.Allow.snd

/-- One atomic transition of a token bucket: a caller's TryAcquire (also
the retries inside Acquire), a refill tick, or a non-panicking Stop. -/
inductive TBStep : TokenBucket → TokenBucket → Prop where
  | tryAcquire (tb : TokenBucket) : TBStep tb tb.TryAcquire.snd
  | tick (tb : TokenBucket) : TBStep tb tb.refillTick
  | stop (tb tb2 : TokenBucket) : tb.Stop = some tb2 → TBStep tb tb2

/-- States of a token bucket reachable from NewTokenBucket c i. -/
inductive TBReach (c i : Int) : TokenBucket → Prop where
  | init : TBReach c i (NewTokenBucket c i)
  | step {tb tb2 : TokenBucket} : TBReach c i tb → TBStep tb tb2 → TBReach c i tb2

/-- One atomic transition of a leaky bucket: a caller's Allow, a
non-panicking drain tick, or a non-panicking Stop. -/
inductive LBStep : leakyBucket → leakyBucket → Prop where
  | allow (lb : leakyBucket) : LBStep lb lb.Allow.snd
  | tick (lb lb2 : leakyBucket) : lb.leakTick = some lb2 → LBStep lb lb2
  | stop (lb lb2 : leakyBucket) : lb.Stop = some lb2 → LBStep lb lb2

/-- States of a leaky bucket reachable from NewLeakyBucket c i k. -/
inductive LBReach (c i k : Int) : leakyBucket → Prop where
  | init : LBReach c i k (NewLeakyBucket c i k)
  | step {lb lb2 : leakyBucket} : LBReach c i k lb → LBStep lb lb2 → LBReach c i k lb2

/-- A full capacity-1 token bucket whose done channel has been closed:
the state reached by Stop on a fresh NewTokenBucket 1 1. -/
def tbStoppedFull : TokenBucket :=
  { capacity := 1, tokens := 1, fillInterval := 1, doneClosed := true }

/-- An empty capacity-1 token bucket whose done channel has been closed:
the state reached by TryAcquire then Stop on a fresh NewTokenBucket 1 1. -/
def tbStoppedEmpty : TokenBucket :=
  { capacity := 1, tokens := 0, fillInterval := 1, doneClosed := true }

/-- A stopped leaky bucket holding one token. -/
def lbStoppedOne : leakyBucket :=
  { capacity := 1, leakRate := 1, queue := [()], stopChClosed := true,
    stopped := true, leakCount := 1 }

/-- A running leaky bucket holding three tokens, with leakCount 2: the
state reached by three Allow calls on NewLeakyBucket 5 1 2. -/
def lbThree : leakyBucket :=
  { capacity := 5, leakRate := 1, queue := [(), (), ()], stopChClosed := false,
    stopped := false, leakCount := 2 }


/-- C9: for every capacity c and interval i, NewTokenBucket c i starts full
(tokens = c = capacity), and NewLeakyBucket c i k starts empty (queue length
0), so CurrentSize on a fresh leaky bucket returns 0. -/
theorem C9_initial_states (c i k : Int) :
    (NewTokenBucket c i).tokens = c ∧
    (NewTokenBucket c i).tokens = (NewTokenBucket c i).capacity ∧
    (NewLeakyBucket c i k).queue.length = 0 ∧
    (NewLeakyBucket c i k).CurrentSize = 0 := by
  refine ⟨rfl, rfl, rfl, ?_⟩
  simp [NewLeakyBucket, leakyBucket.CurrentSize]

/-- C2: evaluated at the failing input.  On a fresh token bucket, the first
Stop succeeds but the second Stop closes the already-closed done channel
and panics (none); the leaky bucket's stopped guard makes its second Stop a
no-op. -/
theorem C2_double_stop :
    ((NewTokenBucket 1 1).Stop).isSome = true ∧
    ((NewTokenBucket 1 1).Stop).bind TokenBucket.Stop = none ∧
    ((NewLeakyBucket 1 1 1).Stop).bind leakyBucket.Stop = (NewLeakyBucket 1 1 1).Stop ∧
    ((NewLeakyBucket 1 1 1).Stop).isSome = true := by
  decide

/-- C1 counterexample: Stop on a fresh capacity-1 token bucket yields
tbStoppedFull, on which TryAcquire still returns true (and consumes the
token), contradicting the claim that every post-Stop TryAcquire returns
false regardless of how many units the bucket held. -/
theorem C1_counterexample :
    (NewTokenBucket 1 1).Stop = some tbStoppedFull ∧
    tbStoppedFull.TryAcquire.fst = true := by
  decide

/-- C1 amended: after Stop, leakyBucket.Allow deterministically returns
false, but TokenBucket.TryAcquire ignores the stopped state: on a stopped
token bucket it returns true exactly when tokens remain. -/
theorem C1_amended_rejection :
    (∀ lb : leakyBucket, lb.stopped = true → lb.Allow.fst = false) ∧
    (∀ tb : TokenBucket, tb.doneClosed = true →
      (tb.TryAcquire.fst = true ↔ 0 < tb.tokens)) := by
  constructor
  · intro lb h
    simp [leakyBucket.Allow, h]
  · intro tb _
    unfold TokenBucket.TryAcquire
    split
    · simpa using by omega
    · simpa using by omega

/-- C1 amended, witness at concrete inputs. -/
theorem C1_amended_rejection_witness :
    lbStoppedOne.Allow.fst = false ∧
    (tbStoppedFull.TryAcquire.fst = true ↔ 0 < tbStoppedFull.tokens) :=
  ⟨C1_amended_rejection.1 lbStoppedOne rfl, C1_amended_rejection.2 tbStoppedFull rfl⟩

/-- C10: NewLeakyBucket accepts any leakCount without validation, and for
a negative leakCount the first drain tick reaches the slice expression with
a negative lower bound and panics (none) instead of a no-op drain. -/
theorem C10_negative_leakCount (c i k : Int) (hk : k < 0) :
    (NewLeakyBucket c i k).leakCount = k ∧
    (NewLeakyBucket c i k).leakTick = none := by
  constructor
  · rfl
  · unfold leakyBucket.leakTick NewLeakyBucket
    simp only [List.length_nil, Nat.cast_zero]
    have h1 : ¬ k > (0 : Int) := by omega
    simp [h1, hk]

/-- C10 witness at capacity 1, interval 1, leakCount -1. -/
theorem C10_negative_leakCount_witness :
    (-1 : Int) < 0 ∧
    (NewLeakyBucket 1 1 (-1)).leakCount = -1 ∧
    (NewLeakyBucket 1 1 (-1)).leakTick = none := by
  refine ⟨by decide, (C10_negative_leakCount 1 1 (-1) (by decide)).1,
    (C10_negative_leakCount 1 1 (-1) (by decide)).2⟩

/-- C4 counterexample: TryAcquire then Stop on a fresh capacity-1 token
bucket yields tbStoppedEmpty with done closed and tokens 0.  A ticker tick
already buffered when done was closed lets the refill loop take the tick
branch once before observing done, incrementing tokens from 0 to 1: a
tick-driven mutation of level after the closing transition is visible. -/
theorem C4_counterexample :
    ((NewTokenBucket 1 1).TryAcquire).snd.Stop = some tbStoppedEmpty ∧
    tbStoppedEmpty.doneClosed = true ∧
    tbStoppedEmpty.tokens = 0 ∧
    (TokenBucket.refillRun [RefillEvent.tick, RefillEvent.done] tbStoppedEmpty).tokens = 1 := by
  decide

/-- C4 amended: the leaky bucket satisfies the claim — once stopped is set,
every drain tick returns the state unchanged (the loop exits without
mutation) — and the token-bucket refill loop performs no step once it
observes done; but a tick pending when done was closed may still be
processed first and increment level (the counterexample). -/
theorem C4_amended_no_mutation :
    (∀ lb : leakyBucket, lb.stopped = true → lb.leakTick = some lb) ∧
    (∀ (evs : List RefillEvent) (tb : TokenBucket),
      TokenBucket.refillRun (RefillEvent.done :: evs) tb = tb) := by
  constructor
  · intro lb h
    simp [leakyBucket.leakTick, h]
  · intro evs tb
    rfl

/-- C4 amended, witness at concrete inputs. -/
theorem C4_amended_no_mutation_witness :
    lbStoppedOne.leakTick = some lbStoppedOne ∧
    TokenBucket.refillRun [RefillEvent.done] tbStoppedFull = tbStoppedFull :=
  ⟨C4_amended_no_mutation.1 lbStoppedOne rfl, C4_amended_no_mutation.2 [] tbStoppedFull⟩

/-- C5: one refill tick before Stop, from a state with 0 ≤ tokens ≤
capacity, sets tokens to min (tokens + 1) capacity and changes no other
field. -/
theorem C5_refill_step (tb : TokenBucket) (h0 : 0 ≤ tb.tokens)
    (h1 : tb.tokens ≤ tb.capacity) (h2 : tb.doneClosed = false) :
    tb.refillTick.tokens = min (tb.tokens + 1) tb.capacity ∧
    tb.refillTick.capacity = tb.capacity ∧
    tb.refillTick.fillInterval = tb.fillInterval ∧
    tb.refillTick.doneClosed = tb.doneClosed := by
  unfold TokenBucket.refillTick
  split
  · exact ⟨by show tb.tokens + 1 = _; omega, rfl, rfl, rfl⟩
  · exact ⟨by show tb.tokens = _; omega, rfl, rfl, rfl⟩

/-- C5 witness at a fresh capacity-2 bucket after one TryAcquire. -/
theorem C5_refill_step_witness :
    0 ≤ ((NewTokenBucket 2 1).TryAcquire.snd).tokens ∧
    ((NewTokenBucket 2 1).TryAcquire.snd).tokens ≤ ((NewTokenBucket 2 1).TryAcquire.snd).capacity ∧
    ((NewTokenBucket 2 1).TryAcquire.snd).doneClosed = false ∧
    ((NewTokenBucket 2 1).TryAcquire.snd).refillTick.tokens
      = min (((NewTokenBucket 2 1).TryAcquire.snd).tokens + 1)
          ((NewTokenBucket 2 1).TryAcquire.snd).capacity :=
  ⟨by decide, by decide, by decide,
    (C5_refill_step ((NewTokenBucket 2 1).TryAcquire.snd) (by decide) (by decide) (by decide)).1⟩

/-- C6: one drain tick before Stop, with leakCount ≥ 1, drops exactly
min leakCount level tokens from the queue: the result is the state with
queue.drop leakCount.toNat, whose length is level minus min leakCount level,
equivalently max (level - leakCount) 0, and never negative. -/
theorem C6_drain_step (lb : leakyBucket) (h0 : lb.stopped = false)
    (h1 : 1 ≤ lb.leakCount) :
    lb.leakTick = some { lb with queue := lb.queue.drop lb.leakCount.toNat } ∧
    ((lb.queue.drop lb.leakCount.toNat).length : Int)
      = (lb.queue.length : Int) - min lb.leakCount (lb.queue.length : Int) ∧
    ((lb.queue.drop lb.leakCount.toNat).length : Int)
      = max ((lb.queue.length : Int) - lb.leakCount) 0 := by
  refine ⟨?_, ?_, ?_⟩
  · unfold leakyBucket.leakTick
    simp only [h0, Bool.false_eq_true, if_false]
    split
    · rename_i hgt
      have hlen : ((lb.queue.length : Int)).toNat = lb.queue.length := Int.toNat_natCast _
      have h2 : ¬ ((lb.queue.length : Int) < 0) := by omega
      simp only [h2, if_false]
      have hd1 : lb.queue.drop ((lb.queue.length : Int)).toNat = [] := by
        rw [hlen]; exact List.drop_length lb.queue
      have hd2 : lb.queue.drop lb.leakCount.toNat = [] := by
        apply List.drop_eq_nil_of_le
        omega
      rw [hd1, hd2]
    · rename_i hle
      have h2 : ¬ (lb.leakCount < 0) := by omega
      simp [h2]
  · rw [List.length_drop]
    omega
  · rw [List.length_drop]
    omega

/-- C6 witness: a running bucket holding three tokens with leakCount 2. -/
theorem C6_drain_step_witness :
    lbThree.stopped = false ∧ 1 ≤ lbThree.leakCount ∧
    lbThree.leakTick = some { lbThree with queue := lbThree.queue.drop lbThree.leakCount.toNat } ∧
    ((lbThree.queue.drop lbThree.leakCount.toNat).length : Int)
      = max ((lbThree.queue.length : Int) - lbThree.leakCount) 0 :=
  ⟨rfl, by decide, (C6_drain_step lbThree rfl (by decide)).1,
    (C6_drain_step lbThree rfl (by decide)).2.2⟩

/-- Helper: the wait loop of Acquire can only fail with ErrContextTimeout. -/
theorem acquireWait_error_eq {evs : List AcquireEvent} {tb tb2 : TokenBucket} {e : String}
    (h : TokenBucket.acquireWait evs tb = some (Except.error e, tb2)) :
    e = ErrContextTimeout := by
  induction evs generalizing tb with
  | nil => simp [TokenBucket.acquireWait] at h
  | cons ev rest ih =>
      cases ev with
      | cancel =>
          simp [TokenBucket.acquireWait] at h
          exact h.1.symm
      | tick =>
          rw [TokenBucket.acquireWait] at h
          rcases htb : tb.TryAcquire with ⟨b, tb3⟩
          rw [htb] at h
          cases b
          · exact ih h
          · simp at h

/-- Helper: TryAcquire on an empty bucket fails and leaves the state
unchanged. -/
theorem tryAcquire_empty {tb : TokenBucket} (h : tb.tokens = 0) :
    tb.TryAcquire = (false, tb) := by
  unfold TokenBucket.TryAcquire
  have : ¬ tb.tokens > 0 := by omega
  simp [this]

/-- C8: on an empty token bucket, Acquire whose first select resolution is
the already-fired cancellation returns ErrContextTimeout with the state
unchanged (still empty), and ErrContextTimeout is the only error Acquire
can ever return. -/
theorem C8_cancelled_acquire (tb : TokenBucket) (evs : List AcquireEvent)
    (h : tb.tokens = 0) :
    TokenBucket.Acquire (AcquireEvent.cancel :: evs) tb
      = some (Except.error ErrContextTimeout, tb) ∧
    (∀ (evs2 : List AcquireEvent) (tb0 tb1 : TokenBucket) (e : String),
      TokenBucket.Acquire evs2 tb0 = some (Except.error e, tb1) →
      e = ErrContextTimeout) := by
  constructor
  · rw [TokenBucket.Acquire, tryAcquire_empty h]
    rfl
  · intro evs2 tb0 tb1 e he
    rw [TokenBucket.Acquire] at he
    rcases htb : tb0.TryAcquire with ⟨b, tb3⟩
    rw [htb] at he
    cases b
    · exact acquireWait_error_eq he
    · simp at he

/-- C8 witness: a fresh zero-capacity bucket with a cancel-first schedule. -/
theorem C8_cancelled_acquire_witness :
    (NewTokenBucket 0 1).tokens = 0 ∧
    TokenBucket.Acquire [AcquireEvent.cancel] (NewTokenBucket 0 1)
      = some (Except.error ErrContextTimeout, NewTokenBucket 0 1) :=
  ⟨rfl, (C8_cancelled_acquire (NewTokenBucket 0 1) [] rfl).1⟩

/-- Helper: TryAcquire succeeds exactly when tokens are positive. -/
theorem tryAcquire_fst {tb : TokenBucket} :
    tb.TryAcquire.fst = decide (0 < tb.tokens) := by
  unfold TokenBucket.TryAcquire
  split
  · rename_i hp
    simp [hp]
  · rename_i hp
    simp
    omega

/-- Helper: j consecutive TryAcquire calls on a bucket holding at least j
tokens remove exactly j tokens and touch no other field. -/
theorem runTryAcquire_spec (j : Nat) :
    ∀ tb : TokenBucket, (j : Int) ≤ tb.tokens →
      (runTryAcquire j tb).tokens = tb.tokens - j ∧
      (runTryAcquire j tb).capacity = tb.capacity := by
  induction j with
  | zero =>
      intro tb _
      constructor
      · show tb.tokens = tb.tokens - (0 : Nat)
        push_cast
        ring
      · rfl
  | succ k ih =>
      intro tb h
      have hpos : tb.tokens > 0 := by push_cast at h; omega
      have hstep : tb.TryAcquire = (true, { tb with tokens := tb.tokens - 1 }) := by
        unfold TokenBucket.TryAcquire
        simp [hpos]
      show (runTryAcquire k tb.TryAcquire.snd).tokens = tb.tokens - ((k : Int) + 1) ∧
        (runTryAcquire k tb.TryAcquire.snd).capacity = tb.capacity
      rw [hstep]
      have hk : (k : Int) ≤ tb.tokens - 1 := by push_cast at h; omega
      rcases ih { tb with tokens := tb.tokens - 1 } hk with ⟨h1, h2⟩
      constructor
      · rw [h1]
        show tb.tokens - 1 - (k : Int) = tb.tokens - ((k : Int) + 1)
        ring
      · rw [h2]

/-- Helper: j consecutive Allow calls on a running bucket with room for j
more tokens add exactly j tokens, preserving capacity and the running
state. -/
theorem runAllow_spec (j : Nat) :
    ∀ lb : leakyBucket, lb.stopped = false →
      (lb.queue.length : Int) + j ≤ lb.capacity →
      (runAllow j lb).queue.length = lb.queue.length + j ∧
      (runAllow j lb).capacity = lb.capacity ∧
      (runAllow j lb).stopped = false := by
  induction j with
  | zero =>
      intro lb hs _
      exact ⟨rfl, rfl, hs⟩
  | succ k ih =>
      intro lb hs h
      have hroom : (lb.queue.length : Int) < lb.capacity := by push_cast at h; omega
      have hstep : lb.Allow = (true, { lb with queue := lb.queue ++ [()] }) := by
        unfold leakyBucket.Allow
        simp [hs, hroom]
      show (runAllow k lb.Allow.snd).queue.length = lb.queue.length + (k + 1) ∧
        (runAllow k lb.Allow.snd).capacity = lb.capacity ∧
        (runAllow k lb.Allow.snd).stopped = false
      rw [hstep]
      have hk : (((lb.queue ++ [()]).length : Nat) : Int) + k
          ≤ ({ lb with queue := lb.queue ++ [()] } : leakyBucket).capacity := by
        simp only [List.length_append, List.length_singleton]
        push_cast at h ⊢
        omega
      rcases ih { lb with queue := lb.queue ++ [()] } hs hk with ⟨h1, h2, h3⟩
      refine ⟨?_, h2, h3⟩
      rw [h1]
      simp only [List.length_append, List.length_singleton]
      omega

/-- C7: a fresh bucket of capacity n admits exactly n consecutive
non-blocking successes and then fails: each of the first n TryAcquire
(resp. Allow) calls returns true and the (n+1)-th returns false, with no
intervening driver tick. -/
theorem C7_exhaustion (n : Nat) (i k : Int) :
    (∀ j : Nat, j < n →
      ((runTryAcquire j (NewTokenBucket (n : Int) i)).TryAcquire).fst = true) ∧
    ((runTryAcquire n (NewTokenBucket (n : Int) i)).TryAcquire).fst = false ∧
    (∀ j : Nat, j < n →
      ((runAllow j (NewLeakyBucket (n : Int) i k)).Allow).fst = true) ∧
    ((runAllow n (NewLeakyBucket (n : Int) i k)).Allow).fst = false := by
  have htb : ∀ j : Nat, j ≤ n →
      (runTryAcquire j (NewTokenBucket (n : Int) i)).tokens = (n : Int) - j := by
    intro j hj
    exact (runTryAcquire_spec j (NewTokenBucket (n : Int) i)
      (by show (j : Int) ≤ (n : Int); push_cast; omega)).1
  have hlb : ∀ j : Nat, j ≤ n →
      (runAllow j (NewLeakyBucket (n : Int) i k)).queue.length = j ∧
      (runAllow j (NewLeakyBucket (n : Int) i k)).capacity = (n : Int) ∧
      (runAllow j (NewLeakyBucket (n : Int) i k)).stopped = false := by
    intro j hj
    have := runAllow_spec j (NewLeakyBucket (n : Int) i k) rfl
      (by show (((0 : Nat) : Int) + j ≤ (n : Int)); push_cast; omega)
    simpa [NewLeakyBucket] using this
  refine ⟨?_, ?_, ?_, ?_⟩
  · intro j hj
    rw [tryAcquire_fst, htb j (le_of_lt hj)]
    simp
    push_cast
    omega
  · rw [tryAcquire_fst, htb n le_rfl]
    simp
  · intro j hj
    rcases hlb j (le_of_lt hj) with ⟨h1, h2, h3⟩
    unfold leakyBucket.Allow
    rw [h1, h2, h3]
    have : ((j : Nat) : Int) < (n : Int) := by push_cast; omega
    simp [this]
  · rcases hlb n le_rfl with ⟨h1, h2, h3⟩
    unfold leakyBucket.Allow
    rw [h1, h2, h3]
    simp

/-- C7 witness at n = 2: two successes, then failure, for both buckets. -/
theorem C7_exhaustion_witness :
    ((runTryAcquire 1 (NewTokenBucket 2 1)).TryAcquire).fst = true ∧
    ((runTryAcquire 2 (NewTokenBucket 2 1)).TryAcquire).fst = false ∧
    ((runAllow 1 (NewLeakyBucket 2 1 1)).Allow).fst = true ∧
    ((runAllow 2 (NewLeakyBucket 2 1 1)).Allow).fst = false := by
  have h := C7_exhaustion 2 1 1
  exact ⟨by simpa using h.1 1 (by omega), by simpa using h.2.1,
    by simpa using h.2.2.1 1 (by omega), by simpa using h.2.2.2⟩

/-- Helper: every token-bucket transition preserves the capacity field and
the bounds 0 ≤ tokens ≤ capacity. -/
theorem tbStep_preserves {tb tb2 : TokenBucket} (hs : TBStep tb tb2)
    (hl : 0 ≤ tb.tokens) (hu : tb.tokens ≤ tb.capacity) :
    tb2.capacity = tb.capacity ∧ 0 ≤ tb2.tokens ∧ tb2.tokens ≤ tb2.capacity := by
  cases hs with
  | tryAcquire =>
      unfold TokenBucket.TryAcquire
      split
      · rename_i hp
        exact ⟨rfl, by show (0 : Int) ≤ tb.tokens - 1; omega,
          by show tb.tokens - 1 ≤ tb.capacity; omega⟩
      · exact ⟨rfl, hl, hu⟩
  | tick =>
      unfold TokenBucket.refillTick
      split
      · rename_i hp
        exact ⟨rfl, by show (0 : Int) ≤ tb.tokens + 1; omega,
          by show tb.tokens + 1 ≤ tb.capacity; omega⟩
      · exact ⟨rfl, hl, hu⟩
  | stop _ hstop =>
      unfold TokenBucket.Stop at hstop
      split at hstop
      · exact absurd hstop (by simp)
      · cases hstop
        exact ⟨rfl, hl, hu⟩

/-- Helper: every leaky-bucket transition preserves the capacity field and
the bound queue length ≤ capacity. -/
theorem lbStep_preserves {lb lb2 : leakyBucket} (hs : LBStep lb lb2)
    (hu : (lb.queue.length : Int) ≤ lb.capacity) :
    lb2.capacity = lb.capacity ∧ (lb2.queue.length : Int) ≤ lb2.capacity := by
  cases hs with
  | allow =>
      unfold leakyBucket.Allow
      split
      · exact ⟨rfl, hu⟩
      · split
        · rename_i hroom
          refine ⟨rfl, ?_⟩
          show (((lb.queue ++ [()]).length : Nat) : Int) ≤ lb.capacity
          simp only [List.length_append, List.length_singleton]
          push_cast
          omega
        · exact ⟨rfl, hu⟩
  | tick _ htick =>
      unfold leakyBucket.leakTick at htick
      split at htick
      · cases htick
        exact ⟨rfl, hu⟩
      · dsimp only at htick
        split at htick
        · split at htick
          · exact absurd htick (by simp)
          · cases htick
            refine ⟨rfl, ?_⟩
            show ((lb.queue.drop _).length : Int) ≤ lb.capacity
            rw [List.length_drop]
            push_cast
            omega
        · split at htick
          · exact absurd htick (by simp)
          · cases htick
            refine ⟨rfl, ?_⟩
            show ((lb.queue.drop _).length : Int) ≤ lb.capacity
            rw [List.length_drop]
            push_cast
            omega
  | stop _ hstop =>
      unfold leakyBucket.Stop at hstop
      split at hstop
      · split at hstop
        · exact absurd hstop (by simp)
        · cases hstop
          exact ⟨rfl, hu⟩
      · cases hstop
        exact ⟨rfl, hu⟩

/-- C3: for every bucket constructed with capacity c ≥ 0 (and leakCount ≥ 1
for the leaky bucket), every state reachable by any sequence of TryAcquire,
Acquire retries, refill ticks, drain ticks and Stop keeps the level within
0 ≤ level ≤ capacity. -/
theorem C3_capacity_invariant (c i k : Int) (hc : 0 ≤ c) (hk : 1 ≤ k) :
    (∀ tb : TokenBucket, TBReach c i tb →
      0 ≤ tb.tokens ∧ tb.tokens ≤ tb.capacity) ∧
    (∀ lb : leakyBucket, LBReach c i k lb →
      0 ≤ (lb.queue.length : Int) ∧ (lb.queue.length : Int) ≤ lb.capacity) := by
  constructor
  · intro tb hreach
    induction hreach with
    | init =>
        exact ⟨by show (0 : Int) ≤ c; omega, le_refl c⟩
    | step hr hs ih =>
        rcases ih with ⟨h1, h2⟩
        rcases tbStep_preserves hs h1 h2 with ⟨_, h3, h4⟩
        exact ⟨h3, h4⟩
  · intro lb hreach
    induction hreach with
    | init =>
        refine ⟨by positivity, ?_⟩
        show ((([] : List Unit).length : Nat) : Int) ≤ c
        simp
        omega
    | step hr hs ih =>
        rcases ih with ⟨h1, h2⟩
        rcases lbStep_preserves hs h2 with ⟨_, h3⟩
        exact ⟨by positivity, h3⟩

/-- C3 witness at capacity 1, applied to the freshly constructed states. -/
theorem C3_capacity_invariant_witness :
    0 ≤ (NewTokenBucket 1 1).tokens ∧
    (NewTokenBucket 1 1).tokens ≤ (NewTokenBucket 1 1).capacity ∧
    0 ≤ ((NewLeakyBucket 1 1 1).queue.length : Int) ∧
    ((NewLeakyBucket 1 1 1).queue.length : Int) ≤ (NewLeakyBucket 1 1 1).capacity := by
  have h := C3_capacity_invariant 1 1 1 (by decide) (by decide)
  have h1 := h.1 (NewTokenBucket 1 1) TBReach.init
  have h2 := h.2 (NewLeakyBucket 1 1 1) LBReach.init
  exact ⟨h1.1, h1.2, h2.1, h2.2⟩
